import Mathlib

/-!
Verification of the timeseries library (package `timeseries`).

The Go data type `Timeseries` is a pair of `float64` slices `Xs`, `Ys`.
Float values are embedded as rationals (`ℚ`): all operations of the library
used below are field operations and order comparisons, which `ℚ` models
exactly.  Go panics are embedded as `Except Err` errors, mirroring the error
taxonomy of the spec (`LengthMismatch`, `EmptySeries`, `IndexOutOfRange`).
Every definition is a direct translation of the corresponding Go function.
-/

/-- Error taxonomy of the library: each Go panic site is embedded as one of
these `Except` errors. -/
inductive Err where
  | lengthMismatch
  | emptySeries
  | outOfBounds
deriving DecidableEq, Repr

/-- Go struct `Timeseries { Xs []float64; Ys []float64 }`. -/
structure Timeseries where
  Xs : List ℚ
  Ys : List ℚ
deriving DecidableEq, Repr

/-- Loop of Go `sort.Search` (`for i < j { h := (i+j)/2; if !f(h) { i = h+1 } else { j = h } }`),
written with an explicit fuel argument; whenever `fuel ≥ j - i` the fuel never
runs out, so the function computes exactly what the Go loop computes. -/
def searchLoop (f : ℕ → Bool) : ℕ → ℕ → ℕ → ℕ
  | 0, i, _ => i
  | fuel + 1, i, j =>
    if i < j then
      let h := (i + j) / 2
      if f h then searchLoop f fuel i h else searchLoop f fuel (h + 1) j
    else i

/-- Go `sort.Search(n, f)`: binary search on `[0, n)`; the initial interval has
width `n`, so fuel `n` suffices. -/
def sortSearch (n : ℕ) (f : ℕ → Bool) : ℕ :=
  searchLoop f n 0 n

namespace Timeseries

/-- Invariant of the data type: `len(Xs) == len(Ys)`. -/
def Consistent (t : Timeseries) : Prop :=
  t.Xs.length = t.Ys.length

instance : DecidablePred Consistent := fun t =>
  inferInstanceAs (Decidable (t.Xs.length = t.Ys.length))

/-- Point list of a series: the (x, y) pairs in order. -/
def pairs (t : Timeseries) : List (ℚ × ℚ) :=
  t.Xs.zip t.Ys

/-- Series built from a list of points (the parallel-arrays view of a point list). -/
def ofPairs (l : List (ℚ × ℚ)) : Timeseries :=
  ⟨l.map Prod.fst, l.map Prod.snd⟩

/-- Value of a non-failing operation: the series under `.ok`, with the empty
series as the (never used) default for the error case. -/
def getOk (e : Except Err Timeseries) : Timeseries :=
  e.toOption.getD ⟨[], []⟩

/-- Go method `Len`: returns the shared length, panics on `len(Xs) != len(Ys)`. -/
def Len (t : Timeseries) : Except Err ℕ :=
  if t.Xs.length ≠ t.Ys.length then .error .lengthMismatch
  else .ok t.Xs.length

/-- Go method `First`: `t.Len()` panics on inconsistent input, then the empty
series is rejected, then `(t.Xs[0], t.Ys[0])` is returned. -/
def First (t : Timeseries) : Except Err (ℚ × ℚ) :=
  if t.Xs.length ≠ t.Ys.length then .error .lengthMismatch
  else if t.Xs.length = 0 then .error .emptySeries
  else .ok (t.Xs.getD 0 0, t.Ys.getD 0 0)

/-- Go method `Last`: as `First` but returning `(t.Xs[n-1], t.Ys[n-1])`. -/
def Last (t : Timeseries) : Except Err (ℚ × ℚ) :=
  if t.Xs.length ≠ t.Ys.length then .error .lengthMismatch
  else if t.Xs.length = 0 then .error .emptySeries
  else .ok (t.Xs.getD (t.Xs.length - 1) 0, t.Ys.getD (t.Ys.length - 1) 0)

/-- Go method `Equal`: panics if either operand is inconsistent, `false` on
differing lengths, otherwise the loop comparing `Xs[i]` and `Ys[i]` pointwise. -/
def Equal (t other : Timeseries) : Except Err Bool :=
  if t.Xs.length ≠ t.Ys.length ∨ other.Xs.length ≠ other.Ys.length then .error .lengthMismatch
  else if t.Xs.length ≠ other.Xs.length then .ok false
  else .ok ((List.range t.Xs.length).all fun i =>
    t.Xs.getD i 0 == other.Xs.getD i 0 && t.Ys.getD i 0 == other.Ys.getD i 0)

/-- Go method `findPivot`: `sort.Search(t.Len(), func(i) bool { return t.Xs[i] >= x })`.
Every caller in the package checks `len(Xs) == len(Ys)` first, so `t.Len()`
equals `len(t.Xs)` at each call site. -/
def findPivot (t : Timeseries) (x : ℚ) : ℕ :=
  sortSearch t.Xs.length (fun i => decide (t.Xs.getD i 0 ≥ x))

/-- Go method `After`: panics on inconsistency; if the pivot is `t.Len()` the
empty series literal is returned, otherwise the suffix views `Xs[i:]`, `Ys[i:]`. -/
def After (t : Timeseries) (x : ℚ) : Except Err Timeseries :=
  if t.Xs.length ≠ t.Ys.length then .error .lengthMismatch
  else
    let i := t.findPivot x
    if i = t.Xs.length then .ok ⟨[], []⟩
    else .ok ⟨t.Xs.drop i, t.Ys.drop i⟩

/-- Go method `Before`: panics on inconsistency; if the pivot is `t.Len()` the
series itself is returned, otherwise the prefix views `Xs[:j]`, `Ys[:j]`. -/
def Before (t : Timeseries) (x : ℚ) : Except Err Timeseries :=
  if t.Xs.length ≠ t.Ys.length then .error .lengthMismatch
  else
    let j := t.findPivot x
    if j = t.Xs.length then .ok t
    else .ok ⟨t.Xs.take j, t.Ys.take j⟩

/-- Go method `Between`: panics on inconsistency, then `t.After(x1).Before(x2)`. -/
def Between (t : Timeseries) (x1 x2 : ℚ) : Except Err Timeseries :=
  if t.Xs.length ≠ t.Ys.length then .error .lengthMismatch
  else t.After x1 >>= fun a => a.Before x2

/-- Go method `Append`: panics on inconsistency, then appends `x` to `Xs` and
`y` to `Ys` (the mutation of the receiver is embedded as the returned series). -/
def Append (t : Timeseries) (x y : ℚ) : Except Err Timeseries :=
  if t.Xs.length ≠ t.Ys.length then .error .lengthMismatch
  else .ok ⟨t.Xs ++ [x], t.Ys ++ [y]⟩

/-- Go method `Difference`: panics on inconsistency; below two elements the
empty series is returned; otherwise the loop fills a fresh series of length
`n - 1` with `Ys[i+1] - Ys[i]` and `Xs[i+1]`. -/
def Difference (t : Timeseries) : Except Err Timeseries :=
  if t.Xs.length ≠ t.Ys.length then .error .lengthMismatch
  else if t.Xs.length < 2 then .ok ⟨[], []⟩
  else .ok ⟨(List.range (t.Xs.length - 1)).map (fun i => t.Xs.getD (i + 1) 0),
            (List.range (t.Xs.length - 1)).map (fun i => t.Ys.getD (i + 1) 0 - t.Ys.getD i 0)⟩

/-- Go method `Slice`: panics on inconsistency, then `t.Xs[start:stop]` and
`t.Ys[start:stop]`; slice bounds outside `0 ≤ start ≤ stop ≤ len` are a Go
runtime panic, embedded as `outOfBounds`. -/
def Slice (t : Timeseries) (start stop : ℕ) : Except Err Timeseries :=
  if t.Xs.length ≠ t.Ys.length then .error .lengthMismatch
  else if start ≤ stop ∧ stop ≤ t.Xs.length then
    .ok ⟨(t.Xs.drop start).take (stop - start), (t.Ys.drop start).take (stop - start)⟩
  else .error .outOfBounds

/-- Comparison used by Go `sort.Sort` on a `Timeseries`: `Less(i, j)` is
`Xs[i] < Xs[j]`, so the induced non-strict order on points compares x only. -/
def byX (p q : ℚ × ℚ) : Prop :=
  p.1 ≤ q.1

instance : DecidableRel byX := fun p q =>
  inferInstanceAs (Decidable (p.1 ≤ q.1))

instance : IsTotal (ℚ × ℚ) byX :=
  ⟨fun p q => le_total p.1 q.1⟩

instance : IsTrans (ℚ × ℚ) byX :=
  ⟨fun _ _ _ h h' => le_trans h h'⟩

/-- Go method `Sort`: panics on inconsistency, then `sort.Sort(t)` with
`Less(i, j) = Xs[i] < Xs[j]` and `Swap` exchanging the (x, y) pairs.  Go
`sort.Sort` runs insertion sort on slices shorter than 12 elements and is in
general an arbitrary comparison sort over `Less`/`Swap`; it is embedded as the
stable insertion sort over the zipped pairs, which agrees with Go exactly on
short slices.  The in-place mutation is embedded as the returned series. -/
def Sort' (t : Timeseries) : Except Err Timeseries :=
  if t.Xs.length ≠ t.Ys.length then .error .lengthMismatch
  else
    let s := List.insertionSort byX (t.Xs.zip t.Ys)
    .ok ⟨s.map Prod.fst, s.map Prod.snd⟩

/-- Modelled from the spec: the source of `MovingAverage` is absent from `src`
(only its tests survive).  Spec §4.5: for input length `n` and window size
`w ≥ 1`, produce length `n - w + 1` where element `i` holds `Xs[i+w-1]` and the
arithmetic mean of the `w` values `Ys[i..i+w-1]`; the tests require the
`LengthMismatch` failure on inconsistent input; for `w > n` (and the
unspecified `w < 1`) the spec recommends the empty series. -/
def MovingAverage (t : Timeseries) (w : ℕ) : Except Err Timeseries :=
  if t.Xs.length ≠ t.Ys.length then .error .lengthMismatch
  else if w < 1 ∨ t.Xs.length < w then .ok ⟨[], []⟩
  else .ok ⟨(List.range (t.Xs.length - w + 1)).map (fun i => t.Xs.getD (i + w - 1) 0),
            (List.range (t.Xs.length - w + 1)).map (fun i =>
              ((List.range w).map (fun k => t.Ys.getD (i + k) 0)).sum / (w : ℚ))⟩

end Timeseries

/-- Weight lookup of Go `MeanSquaredError`: `w = 1.0` when `weights` is nil,
otherwise `w = weights[i]` inside the loop. -/
def mseWeight (weights : Option (List ℚ)) (i : ℕ) : ℚ :=
  match weights with
  | none => 1
  | some ws => ws.getD i 0

/-- Loop of Go `MeanSquaredError`: one pass over the indices accumulating
`mse += w*d*d` and `sumWeights += w` with `d = alpha + beta*x[i] - y[i]`,
both starting at `0.0`. -/
def mseLoop (x y : List ℚ) (weights : Option (List ℚ)) (alpha beta : ℚ) : ℚ × ℚ :=
  (List.range x.length).foldl (fun acc i =>
    let wi := mseWeight weights i
    let d := alpha + beta * x.getD i 0 - y.getD i 0
    (acc.1 + wi * d * d, acc.2 + wi)) ((0 : ℚ), (0 : ℚ))

/-- Go function `MeanSquaredError(x, y, weights, alpha, beta)`: two panic
checks, then the accumulation loop, returning `mse / sumWeights`. -/
def MeanSquaredError (x y : List ℚ) (weights : Option (List ℚ)) (alpha beta : ℚ) :
    Except Err ℚ :=
  if x.length ≠ y.length then .error .lengthMismatch
  else if (match weights with | none => false | some ws => ws.length != x.length) then
    .error .lengthMismatch
  else
    .ok ((mseLoop x y weights alpha beta).1 / (mseLoop x y weights alpha beta).2)

/-- Modelled from the spec: the body of gonum `stat.LinearRegression(xs, ys,
nil, false)` is external to this repository; spec §4.6 describes it as the
ordinary least squares fit of `y = alpha + beta*x` minimizing the total
squared residual (unweighted), so `beta` is the residual covariance over the
x variance and `alpha = ybar - beta*xbar`.  Degenerate inputs (empty series,
all x identical) divide by zero, which is a deterministic total operation in
the rational embedding, matching the implementation-defined-but-deterministic
degenerate results the spec allows. -/
def linearRegression (xs ys : List ℚ) : ℚ × ℚ :=
  let xbar := xs.sum / (xs.length : ℚ)
  let ybar := ys.sum / (ys.length : ℚ)
  let beta := ((xs.zip ys).map (fun p => (p.1 - xbar) * (p.2 - ybar))).sum /
    (xs.map (fun a => (a - xbar) * (a - xbar))).sum
  (ybar - beta * xbar, beta)

/-- Go method `SimpleLinearRegression`: panics on inconsistency, then
`alpha, beta = stat.LinearRegression(t.Xs, t.Ys, nil, false)` followed by
`rmse = math.Sqrt(MeanSquaredError(t.Xs, t.Ys, nil, alpha, beta))`.  A square
root has no rational value, so the embedding returns the radicand (the mean
squared error whose root Go takes) as the third component; the consistency
check and the call structure are translated exactly. -/
def Timeseries.SimpleLinearRegression (t : Timeseries) : Except Err (ℚ × ℚ × ℚ) :=
  if t.Xs.length ≠ t.Ys.length then .error .lengthMismatch
  else
    let ab := linearRegression t.Xs t.Ys
    match MeanSquaredError t.Xs t.Ys none ab.1 ab.2 with
    | .error e => .error e
    | .ok mse => .ok (ab.1, ab.2, mse)

/-- Modelled from the spec: the source of `At` is absent from src (only its
test survives).  Spec §4.6: indexed access failing with `EmptySeries` on an
empty series and `IndexOutOfRange` for an index outside `[0, Len())`,
otherwise returning `(Xs[i], Ys[i])`; like the other accessors its length
computation fails loudly on inconsistent input, as the test panic messages
require. -/
def Timeseries.At (t : Timeseries) (i : ℕ) : Except Err (ℚ × ℚ) :=
  if t.Xs.length ≠ t.Ys.length then .error .lengthMismatch
  else if t.Xs.length = 0 then .error .emptySeries
  else if t.Xs.length ≤ i then .error .outOfBounds
  else .ok (t.Xs.getD i 0, t.Ys.getD i 0)

open Timeseries

/-! ### Helper lemmas about the binary search loop -/

theorem searchLoop_bounds {f : ℕ → Bool} (fuel : ℕ) :
    ∀ i j, i ≤ j → i ≤ searchLoop f fuel i j ∧ searchLoop f fuel i j ≤ j := by
  induction fuel with
  | zero => intro i j h; exact ⟨le_rfl, h⟩
  | succ fuel ih =>
    intro i j h
    simp only [searchLoop]
    by_cases hij : i < j
    · rw [if_pos hij]
      cases hf : f ((i + j) / 2) with
      | true =>
        simp only [hf, if_true]
        obtain ⟨a, b⟩ := ih i ((i + j) / 2) (by omega)
        exact ⟨a, by omega⟩
      | false =>
        simp only [hf, Bool.false_eq_true, if_false]
        obtain ⟨a, b⟩ := ih ((i + j) / 2 + 1) j (by omega)
        exact ⟨by omega, b⟩
    · rw [if_neg hij]
      exact ⟨le_rfl, h⟩

theorem searchLoop_spec {n : ℕ} {f : ℕ → Bool}
    (mono : ∀ a b, a ≤ b → b < n → f a = true → f b = true) (fuel : ℕ) :
    ∀ i j, j - i ≤ fuel → i ≤ j → j ≤ n →
      (∀ k, k < i → f k = false) →
      (∀ k, j ≤ k → k < n → f k = true) →
      (∀ k, k < searchLoop f fuel i j → f k = false) ∧
      (∀ k, searchLoop f fuel i j ≤ k → k < n → f k = true) := by
  induction fuel with
  | zero =>
    intro i j hfuel hij hjn hlo hhi
    have hij' : i = j := by omega
    subst hij'
    exact ⟨hlo, hhi⟩
  | succ fuel ih =>
    intro i j hfuel hij hjn hlo hhi
    simp only [searchLoop]
    by_cases hij' : i < j
    · rw [if_pos hij']
      cases hf : f ((i + j) / 2) with
      | true =>
        simp only [hf, if_true]
        refine ih i ((i + j) / 2) (by omega) (by omega) (by omega) hlo ?_
        intro k hk hkn
        exact mono ((i + j) / 2) k hk hkn hf
      | false =>
        simp only [hf, Bool.false_eq_true, if_false]
        refine ih ((i + j) / 2 + 1) j (by omega) (by omega) hjn ?_ hhi
        intro k hk
        by_cases hki : k < i
        · exact hlo k hki
        · cases hfk : f k with
          | false => rfl
          | true =>
            have : f ((i + j) / 2) = true := mono k ((i + j) / 2) (by omega) (by omega) hfk
            rw [this] at hf
            exact absurd hf (by simp)
    · rw [if_neg hij']
      have hij'' : i = j := by omega
      subst hij''
      exact ⟨hlo, hhi⟩

theorem sortSearch_le (n : ℕ) (f : ℕ → Bool) : sortSearch n f ≤ n :=
  (searchLoop_bounds n 0 n (Nat.zero_le n)).2

theorem sortSearch_spec {n : ℕ} {f : ℕ → Bool}
    (mono : ∀ a b, a ≤ b → b < n → f a = true → f b = true) :
    (∀ k, k < sortSearch n f → f k = false) ∧
    (∀ k, sortSearch n f ≤ k → k < n → f k = true) :=
  searchLoop_spec mono n 0 n (by omega) (by omega) (by omega)
    (fun k hk => absurd hk (Nat.not_lt_zero k))
    (fun k hk hk' => absurd hk' (by omega))

/-! ### The pivot of a sorted series -/

theorem findPivot_le (t : Timeseries) (x : ℚ) : t.findPivot x ≤ t.Xs.length :=
  sortSearch_le _ _

theorem findPivot_spec (t : Timeseries) (x : ℚ) (hs : List.Sorted (· ≤ ·) t.Xs) :
    (∀ k, k < t.findPivot x → ¬ x ≤ t.Xs.getD k 0) ∧
    (∀ k, t.findPivot x ≤ k → k < t.Xs.length → x ≤ t.Xs.getD k 0) := by
  have mono : ∀ a b, a ≤ b → b < t.Xs.length →
      decide (t.Xs.getD a 0 ≥ x) = true → decide (t.Xs.getD b 0 ≥ x) = true := by
    intro a b hab hb ha
    rw [decide_eq_true_iff] at ha ⊢
    rcases Nat.lt_or_ge a b with h | h
    · have hgot := List.Sorted.rel_get_of_lt hs (a := ⟨a, by omega⟩) (b := ⟨b, hb⟩)
        (by exact Fin.mk_lt_mk.mpr h)
      rw [List.getD_eq_getElem _ _ hb]
      rw [List.getD_eq_getElem _ _ (by omega : a < t.Xs.length)] at ha
      simp only [List.get_eq_getElem] at hgot
      exact le_trans ha hgot
    · have hba : a = b := by omega
      subst hba
      exact ha
  obtain ⟨h1, h2⟩ := sortSearch_spec mono
  constructor
  · intro k hk
    have := h1 k hk
    simpa [ge_iff_le] using this
  · intro k hk1 hk2
    have := h2 k hk1 hk2
    simpa [ge_iff_le] using this

/-! ### Contiguous filters on lists -/

theorem filter_eq_take {α : Type} (p : α → Bool) :
    ∀ (l : List α) (r : ℕ), r ≤ l.length →
      (∀ k, (hk : k < l.length) → k < r → p l[k] = true) →
      (∀ k, (hk : k < l.length) → r ≤ k → p l[k] = false) →
      l.filter p = l.take r := by
  intro l
  induction l with
  | nil => intro r _ _ _; simp
  | cons a l ih =>
    intro r hr htrue hfail
    cases r with
    | zero =>
      rw [List.take_zero]
      apply List.filter_eq_nil_iff.mpr
      intro b hb
      obtain ⟨i, hi, hib⟩ := List.getElem_of_mem hb
      rw [← hib]
      simp only [hfail i hi (Nat.zero_le i), Bool.false_eq_true, not_false_iff]
    | succ r =>
      have ha : p a = true := htrue 0 (by simp) (Nat.succ_pos r)
      rw [List.take_succ_cons, List.filter_cons_of_pos ha]
      congr 1
      apply ih r (by simpa using hr)
      · intro k hk hkr
        exact htrue (k + 1) (by simpa using hk) (by omega)
      · intro k hk hkr
        exact hfail (k + 1) (by simpa using hk) (by omega)

theorem filter_eq_drop {α : Type} (p : α → Bool) :
    ∀ (l : List α) (r : ℕ), r ≤ l.length →
      (∀ k, (hk : k < l.length) → k < r → p l[k] = false) →
      (∀ k, (hk : k < l.length) → r ≤ k → p l[k] = true) →
      l.filter p = l.drop r := by
  intro l
  induction l with
  | nil => intro r _ _ _; simp
  | cons a l ih =>
    intro r hr hfail htrue
    cases r with
    | zero =>
      rw [List.drop_zero]
      apply List.filter_eq_self.mpr
      intro b hb
      obtain ⟨i, hi, hib⟩ := List.getElem_of_mem hb
      rw [← hib]
      exact htrue i hi (Nat.zero_le i)
    | succ r =>
      have ha : p a = false := hfail 0 (by simp) (Nat.succ_pos r)
      rw [List.drop_succ_cons, List.filter_cons_of_neg (by simp [ha])]
      apply ih r (by simpa using hr)
      · intro k hk hkr
        exact hfail (k + 1) (by simpa using hk) (by omega)
      · intro k hk hkr
        exact htrue (k + 1) (by simpa using hk) (by omega)

/-! ### Pairs of a series -/

theorem pairs_take (t : Timeseries) (n : ℕ) :
    (Timeseries.mk (t.Xs.take n) (t.Ys.take n)).pairs = t.pairs.take n := by
  simp [Timeseries.pairs, List.zip_eq_zipWith, List.take_zipWith]

theorem pairs_drop (t : Timeseries) (n : ℕ) :
    (Timeseries.mk (t.Xs.drop n) (t.Ys.drop n)).pairs = t.pairs.drop n := by
  simp [Timeseries.pairs, List.zip_eq_zipWith, List.drop_zipWith]

theorem pairs_length (t : Timeseries) (hc : t.Consistent) :
    t.pairs.length = t.Xs.length := by
  have h : t.Xs.length = t.Ys.length := hc
  simp [Timeseries.pairs, h]

theorem pairs_getElem_fst (t : Timeseries) (k : ℕ) (hk : k < t.pairs.length) :
    (t.pairs[k]).1 = t.Xs.getD k 0 := by
  have hkx : k < t.Xs.length := by
    have := hk
    simp only [Timeseries.pairs, List.length_zip, lt_min_iff] at this
    exact this.1
  rw [List.getD_eq_getElem _ _ hkx]
  simp [Timeseries.pairs, List.getElem_zip]

/-! ### Values of the range queries on consistent input -/

theorem After_eq (t : Timeseries) (x : ℚ) (hc : t.Consistent) :
    t.After x = .ok ⟨t.Xs.drop (t.findPivot x), t.Ys.drop (t.findPivot x)⟩ := by
  have hc' : t.Xs.length = t.Ys.length := hc
  unfold Timeseries.After
  rw [if_neg (by omega)]
  by_cases hp : t.findPivot x = t.Xs.length
  · rw [if_pos hp]
    have h1 : t.Xs.drop (t.findPivot x) = [] := List.drop_eq_nil_of_le (by omega)
    have h2 : t.Ys.drop (t.findPivot x) = [] := List.drop_eq_nil_of_le (by omega)
    rw [h1, h2]
  · rw [if_neg hp]

theorem Before_eq (t : Timeseries) (x : ℚ) (hc : t.Consistent) :
    t.Before x = .ok ⟨t.Xs.take (t.findPivot x), t.Ys.take (t.findPivot x)⟩ := by
  have hc' : t.Xs.length = t.Ys.length := hc
  unfold Timeseries.Before
  rw [if_neg (by omega)]
  by_cases hp : t.findPivot x = t.Xs.length
  · rw [if_pos hp]
    have h1 : t.Xs.take (t.findPivot x) = t.Xs := by
      rw [hp]; simp
    have h2 : t.Ys.take (t.findPivot x) = t.Ys := by
      rw [hp, hc']; simp
    rw [h1, h2]
  · rw [if_neg hp]

theorem Between_eq_composition (t : Timeseries) (x1 x2 : ℚ) (hc : t.Consistent) :
    t.Between x1 x2 = t.After x1 >>= fun a => a.Before x2 := by
  have hc' : t.Xs.length = t.Ys.length := hc
  unfold Timeseries.Between
  rw [if_neg (by omega)]

/-! ### Structural equality via the Equal method -/

theorem Equal_char (t u : Timeseries) (hc : t.Consistent) (hu : u.Consistent) :
    t.Equal u = .ok (decide (t.Xs = u.Xs ∧ t.Ys = u.Ys)) := by
  have hc' : t.Xs.length = t.Ys.length := hc
  have hu' : u.Xs.length = u.Ys.length := hu
  unfold Timeseries.Equal
  rw [if_neg (show ¬(t.Xs.length ≠ t.Ys.length ∨ u.Xs.length ≠ u.Ys.length) by omega)]
  by_cases hlen : t.Xs.length = u.Xs.length
  · rw [if_neg (show ¬(t.Xs.length ≠ u.Xs.length) by omega)]
    congr 1
    rw [Bool.eq_iff_iff]
    simp only [List.all_eq_true, List.mem_range, Bool.and_eq_true, beq_iff_eq,
      decide_eq_true_eq]
    constructor
    · intro h
      constructor
      · apply List.ext_getElem hlen
        intro i hi1 hi2
        have := (h i hi1).1
        rwa [List.getD_eq_getElem _ _ hi1, List.getD_eq_getElem _ _ hi2] at this
      · apply List.ext_getElem (by omega)
        intro i hi1 hi2
        have := (h i (by omega)).2
        rwa [List.getD_eq_getElem _ _ (by omega : i < t.Ys.length),
          List.getD_eq_getElem _ _ hi2] at this
    · rintro ⟨h1, h2⟩ i hi
      rw [h1, h2]
      exact ⟨rfl, rfl⟩
  · rw [if_pos (show t.Xs.length ≠ u.Xs.length from hlen)]
    congr 1
    symm
    rw [decide_eq_false_iff_not]
    rintro ⟨h1, _⟩
    exact hlen (congrArg List.length h1)

theorem Equal_refl (t : Timeseries) (hc : t.Consistent) : t.Equal t = .ok true := by
  rw [Equal_char t t hc hc]
  simp

theorem Equal_symm (t u : Timeseries) (hc : t.Consistent) (hu : u.Consistent) :
    t.Equal u = u.Equal t := by
  rw [Equal_char t u hc hu, Equal_char u t hu hc]
  congr 1
  rw [decide_eq_decide]
  constructor
  · rintro ⟨a, b⟩; exact ⟨a.symm, b.symm⟩
  · rintro ⟨a, b⟩; exact ⟨a.symm, b.symm⟩

/-! ### Sums and windows -/

theorem foldl_pair_sum (g h : ℕ → ℚ) :
    ∀ (l : List ℕ) (a b : ℚ),
      l.foldl (fun acc i => (acc.1 + g i, acc.2 + h i)) (a, b) =
        (a + (l.map g).sum, b + (l.map h).sum) := by
  intro l
  induction l with
  | nil => intro a b; simp
  | cons c l ih =>
    intro a b
    rw [List.foldl_cons, ih]
    simp only [List.map_cons, List.sum_cons, Prod.mk.injEq]
    constructor
    · ring
    · ring

theorem map_range_getD (n : ℕ) (f : ℕ → ℚ) (l : List ℚ) (hlen : l.length = n)
    (h : ∀ i, i < n → f i = l.getD i 0) : (List.range n).map f = l := by
  apply List.ext_getElem (by simp [hlen])
  intro i h1 h2
  simp only [List.getElem_map, List.getElem_range]
  rw [h i (by simpa using h1), List.getD_eq_getElem _ _ h2]

theorem window_sum (l : List ℚ) (i w : ℕ) (h : i + w ≤ l.length) :
    ((List.range w).map (fun k => l.getD (i + k) 0)).sum = ((l.drop i).take w).sum := by
  congr 1
  apply map_range_getD w _ _ (by simp; omega)
  intro k hk
  rw [List.getD_eq_getElem _ _ (by omega : i + k < l.length),
      List.getD_eq_getElem _ _ (by simp; omega)]
  rw [List.getElem_take, List.getElem_drop]

theorem take_one_sum (l : List ℚ) (i : ℕ) (hi : i < l.length) :
    ((l.drop i).take 1).sum = l.getD i 0 := by
  rw [List.drop_eq_getElem_cons hi, List.take_succ_cons, List.take_zero, List.sum_cons,
    List.sum_nil, add_zero, List.getD_eq_getElem _ _ hi]

/-! ### Sorting helpers -/

theorem getOk_ok (u : Timeseries) : getOk (.ok u) = u := rfl

theorem ofPairs_pairs (l : List (ℚ × ℚ)) : (ofPairs l).pairs = l := by
  simp only [Timeseries.ofPairs, Timeseries.pairs]
  exact (List.zip_of_prod rfl rfl).symm

theorem ofPairs_consistent (l : List (ℚ × ℚ)) : (ofPairs l).Consistent := by
  simp [Timeseries.ofPairs, Timeseries.Consistent]

theorem Sort'_eq (t : Timeseries) (hc : t.Consistent) :
    t.Sort' = .ok (ofPairs (List.insertionSort byX t.pairs)) := by
  have hc' : t.Xs.length = t.Ys.length := hc
  unfold Timeseries.Sort'
  rw [if_neg (by omega)]
  rfl

theorem sorted_lt_of_sorted_nodup (l : List (ℚ × ℚ)) (hs : List.Sorted byX l)
    (hnd : (l.map Prod.fst).Nodup) :
    List.Sorted (fun p q : ℚ × ℚ => p.1 < q.1) l := by
  have hne : l.Pairwise (fun p q => p.1 ≠ q.1) := List.pairwise_map.mp hnd
  exact (hs.and hne).imp fun h => lt_of_le_of_ne h.1 h.2

theorem sorted_pairs_unique (l1 l2 : List (ℚ × ℚ)) (hp : l1.Perm l2)
    (hs1 : List.Sorted byX l1) (hs2 : List.Sorted byX l2)
    (hnd : (l1.map Prod.fst).Nodup) : l1 = l2 := by
  haveI : IsAntisymm (ℚ × ℚ) (fun p q : ℚ × ℚ => p.1 < q.1) :=
    ⟨fun a b h1 h2 => absurd h2 (lt_asymm h1)⟩
  have hnd2 : (l2.map Prod.fst).Nodup := ((hp.map Prod.fst).nodup_iff).mp hnd
  exact List.eq_of_perm_of_sorted hp (sorted_lt_of_sorted_nodup l1 hs1 hnd)
    (sorted_lt_of_sorted_nodup l2 hs2 hnd2)

/-! ### Claim theorems -/

/-- C2: for every Timeseries `t` with `len(Xs) == len(Ys)` and `Xs`
non-decreasing, and every `x`: `findPivot(x)` returns the smallest index `i`
such that `Xs[i] >= x`, and returns `t.Len()` (the shared length) when no such
index exists. -/
theorem C2_findPivot_smallest (t : Timeseries) (x : ℚ)
    (hc : t.Consistent) (hs : List.Sorted (· ≤ ·) t.Xs) :
    t.findPivot x ≤ t.Xs.length ∧
    (t.findPivot x < t.Xs.length → x ≤ t.Xs.getD (t.findPivot x) 0) ∧
    (∀ i, i < t.findPivot x → ¬ x ≤ t.Xs.getD i 0) ∧
    ((∀ i, i < t.Xs.length → ¬ x ≤ t.Xs.getD i 0) → t.findPivot x = t.Xs.length) := by
  obtain ⟨h1, h2⟩ := findPivot_spec t x hs
  refine ⟨findPivot_le t x, fun hlt => h2 _ le_rfl hlt, h1, fun hnone => ?_⟩
  by_contra hne
  have hlt : t.findPivot x < t.Xs.length :=
    lt_of_le_of_ne (findPivot_le t x) hne
  exact hnone _ hlt (h2 _ le_rfl hlt)

/-- Witness for C2 at the sorted series Xs = [1, 2, 3], Ys = [100, 50, 100]
and query x = 2: the hypotheses hold and the pivot is the smallest index with
Xs[i] >= 2, namely 1. -/
theorem C2_witness :
    (Timeseries.mk [1, 2, 3] [100, 50, 100]).Consistent ∧
    List.Sorted (· ≤ ·) (Timeseries.mk [1, 2, 3] [100, 50, 100]).Xs ∧
    (Timeseries.mk [1, 2, 3] [100, 50, 100]).findPivot 2 = 1 ∧
    ((Timeseries.mk [1, 2, 3] [100, 50, 100]).findPivot 2 < 3 →
      (2 : ℚ) ≤ (Timeseries.mk [1, 2, 3] [100, 50, 100]).Xs.getD
        ((Timeseries.mk [1, 2, 3] [100, 50, 100]).findPivot 2) 0) :=
  ⟨by decide, by decide, by decide,
    fun h => by
      have := (C2_findPivot_smallest (Timeseries.mk [1, 2, 3] [100, 50, 100]) 2
        (by decide) (by decide)).2.1 (by simpa using h)
      simpa using this⟩

/-- C1: for every Timeseries `t` with `len(Xs) == len(Ys)` and `Xs`
non-decreasing, and every query `x`: `t.Before(x).Len() + t.After(x).Len() ==
t.Len()`, and the pairs of `Before(x)` followed by the pairs of `After(x)`
reproduce exactly the pairs of `t` in their original order. -/
theorem C1_before_after_partition (t : Timeseries) (x : ℚ)
    (hc : t.Consistent) (hs : List.Sorted (· ≤ ·) t.Xs) :
    t.Before x = .ok (getOk (t.Before x)) ∧
    t.After x = .ok (getOk (t.After x)) ∧
    (getOk (t.Before x)).Consistent ∧
    (getOk (t.After x)).Consistent ∧
    (getOk (t.Before x)).Xs.length + (getOk (t.After x)).Xs.length = t.Xs.length ∧
    (getOk (t.Before x)).pairs ++ (getOk (t.After x)).pairs = t.pairs := by
  have hc' : t.Xs.length = t.Ys.length := hc
  have hle : t.findPivot x ≤ t.Xs.length := findPivot_le t x
  rw [Before_eq t x hc, After_eq t x hc, getOk_ok, getOk_ok]
  refine ⟨rfl, rfl, ?_, ?_, ?_, ?_⟩
  · show (t.Xs.take (t.findPivot x)).length = (t.Ys.take (t.findPivot x)).length
    simp [hc']
  · show (t.Xs.drop (t.findPivot x)).length = (t.Ys.drop (t.findPivot x)).length
    simp [hc']
  · show (t.Xs.take (t.findPivot x)).length + (t.Xs.drop (t.findPivot x)).length = _
    simp only [List.length_take, List.length_drop]
    omega
  · rw [pairs_take, pairs_drop, List.take_append_drop]

/-- Witness for C1 at the sorted series Xs = [1, 2, 3], Ys = [100, 50, 100]
and query x = 2. -/
theorem C1_witness :
    (Timeseries.mk [1, 2, 3] [100, 50, 100]).Consistent ∧
    List.Sorted (· ≤ ·) (Timeseries.mk [1, 2, 3] [100, 50, 100]).Xs ∧
    (getOk ((Timeseries.mk [1, 2, 3] [100, 50, 100]).Before 2)).pairs ++
        (getOk ((Timeseries.mk [1, 2, 3] [100, 50, 100]).After 2)).pairs =
      (Timeseries.mk [1, 2, 3] [100, 50, 100]).pairs :=
  ⟨by decide, by decide,
    (C1_before_after_partition (Timeseries.mk [1, 2, 3] [100, 50, 100]) 2
      (by decide) (by decide)).2.2.2.2.2⟩

/-- C3: for every consistent sorted Timeseries `t` and all `x1, x2`:
`t.Between(x1, x2)` equals `t.After(x1).Before(x2)`, contains exactly the
pairs whose x lies in the half-open interval `[x1, x2)`, and is the empty
series whenever `x1 >= x2`. -/
theorem C3_between_halfopen (t : Timeseries) (x1 x2 : ℚ)
    (hc : t.Consistent) (hs : List.Sorted (· ≤ ·) t.Xs) :
    t.Between x1 x2 = (t.After x1 >>= fun s => s.Before x2) ∧
    t.Between x1 x2 = .ok (getOk (t.Between x1 x2)) ∧
    (getOk (t.Between x1 x2)).pairs =
      t.pairs.filter (fun p => decide (x1 ≤ p.1) && decide (p.1 < x2)) ∧
    (x2 ≤ x1 → t.Between x1 x2 = .ok ⟨[], []⟩) := by
  have hc' : t.Xs.length = t.Ys.length := hc
  set i1 := t.findPivot x1 with hi1
  have hA : t.After x1 = .ok ⟨t.Xs.drop i1, t.Ys.drop i1⟩ := After_eq t x1 hc
  set av : Timeseries := ⟨t.Xs.drop i1, t.Ys.drop i1⟩ with hav
  have hac : av.Consistent := by
    show (t.Xs.drop i1).length = (t.Ys.drop i1).length
    simp [hc']
  set j2 := av.findPivot x2 with hj2
  have hB : av.Before x2 = .ok ⟨av.Xs.take j2, av.Ys.take j2⟩ := Before_eq av x2 hac
  have hBv : t.Between x1 x2 = .ok ⟨av.Xs.take j2, av.Ys.take j2⟩ := by
    rw [Between_eq_composition t x1 x2 hc, hA]
    exact hB
  have hsa : List.Sorted (· ≤ ·) av.Xs := hs.sublist (List.drop_sublist _ _)
  obtain ⟨hp1lo, hp1hi⟩ := findPivot_spec t x1 hs
  obtain ⟨hp2lo, hp2hi⟩ := findPivot_spec av x2 hsa
  have hi1le : i1 ≤ t.Xs.length := findPivot_le t x1
  have hj2le : j2 ≤ av.Xs.length := findPivot_le av x2
  have hap : av.pairs = t.pairs.drop i1 := pairs_drop t i1
  have hinner : t.pairs.filter (fun p => decide (x1 ≤ p.1)) = t.pairs.drop i1 := by
    apply filter_eq_drop
    · rw [pairs_length t hc]; exact hi1le
    · intro k hk hklt
      have h1 := hp1lo k hklt
      rw [pairs_getElem_fst t k hk]
      simpa using h1
    · intro k hk hkge
      have h2 := hp1hi k hkge (by rwa [pairs_length t hc] at hk)
      rw [pairs_getElem_fst t k hk]
      simpa using h2
  have houter : (t.pairs.drop i1).filter (fun p => decide (p.1 < x2)) =
      (t.pairs.drop i1).take j2 := by
    rw [← hap]
    apply filter_eq_take
    · rw [pairs_length av hac]; exact hj2le
    · intro k hk hklt
      have h1 := hp2lo k hklt
      rw [pairs_getElem_fst av k hk]
      simpa using not_le.mp h1
    · intro k hk hkge
      have h2 := hp2hi k hkge (by rwa [pairs_length av hac] at hk)
      rw [pairs_getElem_fst av k hk]
      simp only [decide_eq_false_iff_not, not_lt]
      exact h2
  have hfilter : (getOk (t.Between x1 x2)).pairs =
      t.pairs.filter (fun p => decide (x1 ≤ p.1) && decide (p.1 < x2)) := by
    rw [hBv, getOk_ok]
    have hl : (Timeseries.mk (av.Xs.take j2) (av.Ys.take j2)).pairs =
        (t.pairs.drop i1).take j2 := by
      rw [pairs_take av j2, hap]
    rw [hl]
    have hcomm : t.pairs.filter (fun p => decide (x1 ≤ p.1) && decide (p.1 < x2)) =
        t.pairs.filter (fun p => decide (p.1 < x2) && decide (x1 ≤ p.1)) :=
      List.filter_congr (fun p _ => Bool.and_comm _ _)
    rw [hcomm, ← List.filter_filter, hinner, houter]
  refine ⟨Between_eq_composition t x1 x2 hc, ?_, hfilter, ?_⟩
  · rw [hBv]; rfl
  · intro hle
    have hnil : t.pairs.filter (fun p => decide (x1 ≤ p.1) && decide (p.1 < x2)) = [] := by
      apply List.filter_eq_nil_iff.mpr
      intro p _
      simp only [Bool.and_eq_true, decide_eq_true_eq, not_and]
      intro h1
      exact not_lt.mpr (le_trans hle h1)
    have hzip : ((t.Xs.drop i1).take j2).zip ((t.Ys.drop i1).take j2) = [] := by
      have h := hfilter
      rw [hBv, getOk_ok, hnil] at h
      exact h
    have hll : ((t.Xs.drop i1).take j2).length = ((t.Ys.drop i1).take j2).length := by
      simp only [List.length_take, List.length_drop]
      omega
    have hlen0 : ((t.Xs.drop i1).take j2).length = 0 := by
      have h := congrArg List.length hzip
      simp only [List.length_zip, List.length_nil] at h
      omega
    have e1 : (t.Xs.drop i1).take j2 = [] := List.length_eq_zero.mp hlen0
    have e2 : (t.Ys.drop i1).take j2 = [] := List.length_eq_zero.mp (by omega)
    rw [hBv]
    show Except.ok (Timeseries.mk ((t.Xs.drop i1).take j2) ((t.Ys.drop i1).take j2)) =
      Except.ok (Timeseries.mk [] [])
    rw [e1, e2]

/-- Witness for C3 at the sorted series Xs = [1, 2, 3], Ys = [100, 50, 100]
with x1 = 2, x2 = 3: Between keeps exactly the middle pair. -/
theorem C3_witness :
    (Timeseries.mk [1, 2, 3] [100, 50, 100]).Consistent ∧
    List.Sorted (· ≤ ·) (Timeseries.mk [1, 2, 3] [100, 50, 100]).Xs ∧
    (getOk ((Timeseries.mk [1, 2, 3] [100, 50, 100]).Between 2 3)).pairs =
      (Timeseries.mk [1, 2, 3] [100, 50, 100]).pairs.filter
        (fun p => decide ((2 : ℚ) ≤ p.1) && decide (p.1 < (3 : ℚ))) :=
  ⟨by decide, by decide,
    (C3_between_halfopen (Timeseries.mk [1, 2, 3] [100, 50, 100]) 2 3
      (by decide) (by decide)).2.2.1⟩

/-- C4: for every consistent Timeseries `t` of length `n`: if `n >= 2`,
`t.Difference()` has length `n - 1` with `Ys[i+1] - Ys[i]` as new y values and
`Xs[i+1]` as new x values for every `0 <= i < n - 1`; if `n < 2`,
`t.Difference()` returns an empty series and does not fail. -/
theorem C4_difference (t : Timeseries) (hc : t.Consistent) :
    (2 ≤ t.Xs.length →
      t.Difference = .ok (getOk t.Difference) ∧
      (getOk t.Difference).Xs.length = t.Xs.length - 1 ∧
      (getOk t.Difference).Ys.length = t.Xs.length - 1 ∧
      (∀ i, i < t.Xs.length - 1 →
        (getOk t.Difference).Ys.getD i 0 = t.Ys.getD (i + 1) 0 - t.Ys.getD i 0 ∧
        (getOk t.Difference).Xs.getD i 0 = t.Xs.getD (i + 1) 0)) ∧
    (t.Xs.length < 2 → t.Difference = .ok ⟨[], []⟩) := by
  have hc' : t.Xs.length = t.Ys.length := hc
  constructor
  · intro h2
    have hD : t.Difference =
        .ok ⟨(List.range (t.Xs.length - 1)).map (fun i => t.Xs.getD (i + 1) 0),
             (List.range (t.Xs.length - 1)).map (fun i => t.Ys.getD (i + 1) 0 - t.Ys.getD i 0)⟩ := by
      unfold Timeseries.Difference
      rw [if_neg (by omega), if_neg (by omega)]
    rw [hD, getOk_ok]
    refine ⟨rfl, by simp, by simp, ?_⟩
    intro i hi
    constructor
    · rw [List.getD_eq_getElem _ _ (by simp; omega)]
      simp
    · rw [List.getD_eq_getElem _ _ (by simp; omega)]
      simp
  · intro h2
    unfold Timeseries.Difference
    rw [if_neg (by omega), if_pos h2]

/-- Witness for C4 at the series Xs = [1, 2, 3], Ys = [100, 50, 100]: the
difference has length 2 and its first y value is Ys[1] - Ys[0]. -/
theorem C4_witness :
    (Timeseries.mk [1, 2, 3] [100, 50, 100]).Consistent ∧
    (getOk (Timeseries.mk [1, 2, 3] [100, 50, 100]).Difference).Xs.length =
      (Timeseries.mk [1, 2, 3] [100, 50, 100]).Xs.length - 1 ∧
    (getOk (Timeseries.mk [1, 2, 3] [100, 50, 100]).Difference).Ys.getD 0 0 =
      (Timeseries.mk [1, 2, 3] [100, 50, 100]).Ys.getD 1 0 -
        (Timeseries.mk [1, 2, 3] [100, 50, 100]).Ys.getD 0 0 :=
  ⟨by decide,
    ((C4_difference (Timeseries.mk [1, 2, 3] [100, 50, 100]) (by decide)).1
      (by decide)).2.1,
    (((C4_difference (Timeseries.mk [1, 2, 3] [100, 50, 100]) (by decide)).1
      (by decide)).2.2.2 0 (by decide)).1⟩

/-- C8: for every consistent Timeseries `t`: `First()` and `Last()` fail with
`EmptySeries` if and only if the length is 0; otherwise `First()` returns
`(Xs[0], Ys[0])` and `Last()` returns `(Xs[n-1], Ys[n-1])` (the embedding is
pure, so `t` is trivially left unchanged). -/
theorem C8_first_last (t : Timeseries) (hc : t.Consistent) :
    (t.First = .error .emptySeries ↔ t.Xs.length = 0) ∧
    (t.Last = .error .emptySeries ↔ t.Xs.length = 0) ∧
    (0 < t.Xs.length →
      t.First = .ok (t.Xs.getD 0 0, t.Ys.getD 0 0) ∧
      t.Last = .ok (t.Xs.getD (t.Xs.length - 1) 0, t.Ys.getD (t.Xs.length - 1) 0)) := by
  have hc' : t.Xs.length = t.Ys.length := hc
  by_cases h0 : t.Xs.length = 0
  · have hF : t.First = .error .emptySeries := by
      unfold Timeseries.First
      rw [if_neg (by omega), if_pos h0]
    have hL : t.Last = .error .emptySeries := by
      unfold Timeseries.Last
      rw [if_neg (by omega), if_pos h0]
    exact ⟨by simp [hF, h0], by simp [hL, h0], fun h => absurd h (by omega)⟩
  · have hF : t.First = .ok (t.Xs.getD 0 0, t.Ys.getD 0 0) := by
      unfold Timeseries.First
      rw [if_neg (by omega), if_neg h0]
    have hL : t.Last = .ok (t.Xs.getD (t.Xs.length - 1) 0, t.Ys.getD (t.Xs.length - 1) 0) := by
      unfold Timeseries.Last
      rw [if_neg (by omega), if_neg h0, ← hc']
    exact ⟨by simp [hF, h0], by simp [hL, h0], fun _ => ⟨hF, hL⟩⟩

/-- Witness for C8 at the series Xs = [1, 2], Ys = [3, 4]. -/
theorem C8_witness :
    (Timeseries.mk [1, 2] [3, 4]).Consistent ∧
    (Timeseries.mk [1, 2] [3, 4]).First =
      .ok ((Timeseries.mk [1, 2] [3, 4]).Xs.getD 0 0,
           (Timeseries.mk [1, 2] [3, 4]).Ys.getD 0 0) ∧
    ((Timeseries.mk [1, 2] [3, 4]).First = .error .emptySeries ↔
      (Timeseries.mk [1, 2] [3, 4]).Xs.length = 0) :=
  ⟨by decide,
    ((C8_first_last (Timeseries.mk [1, 2] [3, 4]) (by decide)).2.2 (by decide)).1,
    (C8_first_last (Timeseries.mk [1, 2] [3, 4]) (by decide)).1⟩

/-- C10: `MeanSquaredError` called with empty `x` and `y` (weights nil or
empty) does not fail with any error: it returns the quotient `0 / 0` (in the
float64 original this is `0.0/0.0`, i.e. NaN) rather than raising
`EmptySeries` or `LengthMismatch`. -/
theorem C10_mse_empty (alpha beta : ℚ) :
    MeanSquaredError [] [] none alpha beta = .ok (0 / 0) ∧
    MeanSquaredError [] [] (some []) alpha beta = .ok (0 / 0) := by
  constructor
  · rfl
  · rfl

theorem mseLoop_eq (x y : List ℚ) (weights : Option (List ℚ)) (alpha beta : ℚ) :
    mseLoop x y weights alpha beta =
      (((List.range x.length).map (fun i =>
          mseWeight weights i * (alpha + beta * x.getD i 0 - y.getD i 0) ^ 2)).sum,
       ((List.range x.length).map (fun i => mseWeight weights i)).sum) := by
  have hsq : (fun i => mseWeight weights i * (alpha + beta * x.getD i 0 - y.getD i 0) ^ 2) =
      (fun i => mseWeight weights i * (alpha + beta * x.getD i 0 - y.getD i 0) *
        (alpha + beta * x.getD i 0 - y.getD i 0)) := by
    funext i
    rw [sq, ← mul_assoc]
  rw [hsq]
  have h := foldl_pair_sum
    (fun i => mseWeight weights i * (alpha + beta * x.getD i 0 - y.getD i 0) *
      (alpha + beta * x.getD i 0 - y.getD i 0))
    (fun i => mseWeight weights i) (List.range x.length) 0 0
  unfold mseLoop
  simpa using h

theorem MSE_value (x y : List ℚ) (weights : Option (List ℚ)) (alpha beta : ℚ)
    (hxy : x.length = y.length)
    (hw : ∀ ws, weights = some ws → ws.length = x.length) :
    MeanSquaredError x y weights alpha beta =
      .ok (((List.range x.length).map (fun i =>
              mseWeight weights i * (alpha + beta * x.getD i 0 - y.getD i 0) ^ 2)).sum /
           ((List.range x.length).map (fun i => mseWeight weights i)).sum) := by
  cases weights with
  | none =>
    unfold MeanSquaredError
    rw [if_neg (by omega)]
    show (if (false = true) then Except.error Err.lengthMismatch
      else Except.ok ((mseLoop x y none alpha beta).1 / (mseLoop x y none alpha beta).2)) = _
    rw [if_neg (by simp), mseLoop_eq]
  | some ws =>
    have hlen : ws.length = x.length := hw ws rfl
    unfold MeanSquaredError
    rw [if_neg (by omega)]
    show (if ((ws.length != x.length) = true) then Except.error Err.lengthMismatch
      else Except.ok ((mseLoop x y (some ws) alpha beta).1 /
        (mseLoop x y (some ws) alpha beta).2)) = _
    rw [if_neg (by simp [hlen]), mseLoop_eq]

/-- C5: for all slices `x`, `y`, `weights` and all `alpha`, `beta`:
`MeanSquaredError` returns the sum over `i` of `w[i]*(alpha + beta*x[i] -
y[i])^2` divided by the sum of the `w[i]`, where `w[i] == weights[i]` when
weights is non-nil and `w[i] == 1` when weights is nil; and it fails with
`LengthMismatch` if and only if `len(x) != len(y)`, or weights is non-nil and
`len(weights) != len(x)`. -/
theorem C5_mse (x y : List ℚ) (weights : Option (List ℚ)) (alpha beta : ℚ) :
    (MeanSquaredError x y weights alpha beta = .error Err.lengthMismatch ↔
      x.length ≠ y.length ∨ ∃ ws, weights = some ws ∧ ws.length ≠ x.length) ∧
    (x.length = y.length → (∀ ws, weights = some ws → ws.length = x.length) →
      MeanSquaredError x y weights alpha beta =
        .ok (((List.range x.length).map (fun i =>
                mseWeight weights i * (alpha + beta * x.getD i 0 - y.getD i 0) ^ 2)).sum /
             ((List.range x.length).map (fun i => mseWeight weights i)).sum)) := by
  constructor
  · constructor
    · intro herr
      by_contra hno
      push_neg at hno
      obtain ⟨h1, h2⟩ := hno
      have hw : ∀ ws, weights = some ws → ws.length = x.length := by
        intro ws hws
        exact h2 ws hws
      rw [MSE_value x y weights alpha beta h1 hw] at herr
      exact Except.noConfusion herr
    · intro h
      rcases h with h | ⟨ws, hws, hne⟩
      · unfold MeanSquaredError
        rw [if_pos (by omega)]
      · subst hws
        by_cases hxy : x.length = y.length
        · unfold MeanSquaredError
          rw [if_neg (by omega)]
          show (if ((ws.length != x.length) = true) then Except.error Err.lengthMismatch
            else Except.ok ((mseLoop x y (some ws) alpha beta).1 /
              (mseLoop x y (some ws) alpha beta).2)) = Except.error Err.lengthMismatch
          rw [if_pos (by simpa using hne)]
        · unfold MeanSquaredError
          rw [if_pos (by omega)]
  · intro hxy hw
    exact MSE_value x y weights alpha beta hxy hw

/-- Witness for C5: weighted example with x = [1, 2], y = [1, 3],
weights = [2, 1], alpha = beta = 1, giving (2*1 + 1*0)/(2+1) = 2/3; and a
length mismatch that fails. -/
theorem C5_witness :
    MeanSquaredError [1, 2] [1, 3] (some [2, 1]) 1 1 = .ok (2 / 3) ∧
    MeanSquaredError [1] [] none 0 0 = .error Err.lengthMismatch := by
  constructor
  · have h := (C5_mse [1, 2] [1, 3] (some [2, 1]) 1 1).2 (by decide)
      (fun ws hws => by cases hws; decide)
    rw [h]
    norm_num [mseWeight, List.range_succ]
  · exact (C5_mse [1] [] none 0 0).1.mpr (Or.inl (by decide))

/-- C6: for every consistent Timeseries of length `n` and every window size
`w >= 1` with `w <= n`: `MovingAverage(w)` produces a series of length
`n - w + 1` whose element `i` holds x-coordinate `Xs[i+w-1]` and y-coordinate
equal to the arithmetic mean of the `w` contiguous values `Ys[i..i+w-1]`; in
particular `MovingAverage(1)` returns a series equal to the input for every
consistent series.  (`MovingAverage` is modelled from the spec, its source
being absent from src.) -/
theorem C6_movingAverage (t : Timeseries) (w : ℕ) (hc : t.Consistent) :
    (1 ≤ w → w ≤ t.Xs.length →
      t.MovingAverage w = .ok (getOk (t.MovingAverage w)) ∧
      (getOk (t.MovingAverage w)).Xs.length = t.Xs.length - w + 1 ∧
      (getOk (t.MovingAverage w)).Ys.length = t.Xs.length - w + 1 ∧
      (∀ i, i < t.Xs.length - w + 1 →
        (getOk (t.MovingAverage w)).Xs.getD i 0 = t.Xs.getD (i + w - 1) 0 ∧
        ((t.Ys.drop i).take w).length = w ∧
        (getOk (t.MovingAverage w)).Ys.getD i 0 = ((t.Ys.drop i).take w).sum / w)) ∧
    t.MovingAverage 1 = .ok t := by
  have hc' : t.Xs.length = t.Ys.length := hc
  constructor
  · intro hw1 hwn
    have hMA : t.MovingAverage w =
        .ok ⟨(List.range (t.Xs.length - w + 1)).map (fun i => t.Xs.getD (i + w - 1) 0),
             (List.range (t.Xs.length - w + 1)).map (fun i =>
               ((List.range w).map (fun k => t.Ys.getD (i + k) 0)).sum / (w : ℚ))⟩ := by
      unfold Timeseries.MovingAverage
      rw [if_neg (by omega), if_neg (by omega)]
    rw [hMA, getOk_ok]
    refine ⟨rfl, by simp, by simp, ?_⟩
    intro i hi
    refine ⟨?_, ?_, ?_⟩
    · rw [List.getD_eq_getElem _ _ (by simp; omega)]
      simp
    · simp only [List.length_take, List.length_drop]
      omega
    · rw [List.getD_eq_getElem _ _ (by simp; omega)]
      simp only [List.getElem_map, List.getElem_range]
      rw [window_sum t.Ys i w (by omega)]
  · by_cases h0 : t.Xs.length = 0
    · unfold Timeseries.MovingAverage
      rw [if_neg (by omega), if_pos (by omega)]
      obtain ⟨xs, ys⟩ := t
      simp only at h0 hc'
      have hx : xs = [] := List.length_eq_zero.mp h0
      have hy : ys = [] := List.length_eq_zero.mp (by omega)
      rw [hx, hy]
    · unfold Timeseries.MovingAverage
      rw [if_neg (by omega), if_neg (by omega)]
      have hx : (List.range (t.Xs.length - 1 + 1)).map (fun i => t.Xs.getD (i + 1 - 1) 0) =
          t.Xs := by
        apply map_range_getD _ _ _ (by omega)
        intro i _
        simp
      have hy : (List.range (t.Xs.length - 1 + 1)).map (fun i =>
          ((List.range 1).map (fun k => t.Ys.getD (i + k) 0)).sum / ((1 : ℕ) : ℚ)) =
          t.Ys := by
        apply map_range_getD _ _ _ (by omega)
        intro i _
        rw [show List.range 1 = [0] from rfl]
        simp
      rw [hx, hy]

/-- Witness for C6 at the series Xs = [1, 2, 3], Ys = [2, 4, 8] with window 2,
and the window-1 identity. -/
theorem C6_witness :
    (Timeseries.mk [1, 2, 3] [2, 4, 8]).Consistent ∧
    (getOk ((Timeseries.mk [1, 2, 3] [2, 4, 8]).MovingAverage 2)).Xs.length =
      (Timeseries.mk [1, 2, 3] [2, 4, 8]).Xs.length - 2 + 1 ∧
    (Timeseries.mk [1, 2, 3] [2, 4, 8]).MovingAverage 1 =
      .ok (Timeseries.mk [1, 2, 3] [2, 4, 8]) :=
  ⟨by decide,
    ((C6_movingAverage (Timeseries.mk [1, 2, 3] [2, 4, 8]) 2 (by decide)).1
      (by decide) (by decide)).2.1,
    (C6_movingAverage (Timeseries.mk [1, 2, 3] [2, 4, 8]) 1 (by decide)).2⟩

/-- C7 (amended): `Equal` is reflexive and symmetric on consistent series; and
for every two series built from the same multiset of (x, y) points whose
x-values are pairwise distinct, calling `Sort()` on each makes them Equal.
(With duplicate x-values the claim fails: `Less` compares only x, so the tie
order after sorting follows the insertion order; see the counterexample.) -/
theorem C7_equal_sort (t u : Timeseries) (l1 l2 : List (ℚ × ℚ))
    (hc : t.Consistent) (hu : u.Consistent)
    (hperm : l1.Perm l2) (hnd : (l1.map Prod.fst).Nodup) :
    t.Equal t = .ok true ∧
    t.Equal u = u.Equal t ∧
    (ofPairs l1).Sort' = .ok (getOk ((ofPairs l1).Sort')) ∧
    (ofPairs l2).Sort' = .ok (getOk ((ofPairs l2).Sort')) ∧
    (getOk ((ofPairs l1).Sort')).Equal (getOk ((ofPairs l2).Sort')) = .ok true := by
  have h1 := Sort'_eq (ofPairs l1) (ofPairs_consistent l1)
  have h2 := Sort'_eq (ofPairs l2) (ofPairs_consistent l2)
  have hps : List.insertionSort byX (ofPairs l1).pairs =
      List.insertionSort byX (ofPairs l2).pairs := by
    rw [ofPairs_pairs, ofPairs_pairs]
    apply sorted_pairs_unique
    · exact ((List.perm_insertionSort byX l1).trans hperm).trans
        (List.perm_insertionSort byX l2).symm
    · exact List.sorted_insertionSort byX l1
    · exact List.sorted_insertionSort byX l2
    · exact ((List.perm_insertionSort byX l1).map Prod.fst).nodup_iff.mpr hnd
  refine ⟨Equal_refl t hc, Equal_symm t u hc hu, ?_, ?_, ?_⟩
  · rw [h1]; rfl
  · rw [h2]; rfl
  · rw [h1, h2, getOk_ok, getOk_ok, hps]
    exact Equal_refl _ (ofPairs_consistent _)

/-- Counterexample to C7 as stated: the two series hold the same multiset of
points {(1, 2), (1, 3)} (each built by two Appends on the empty series), yet
after Sort they are not Equal, because Less compares only the x values and
both x values are 1, so each series keeps its own insertion order of the ys. -/
theorem C7_counterexample :
    Timeseries.Append (getOk (Timeseries.Append (Timeseries.mk [] []) 1 2)) 1 3 =
      .ok (Timeseries.mk [1, 1] [2, 3]) ∧
    Timeseries.Append (getOk (Timeseries.Append (Timeseries.mk [] []) 1 3)) 1 2 =
      .ok (Timeseries.mk [1, 1] [3, 2]) ∧
    (Timeseries.pairs (Timeseries.mk [1, 1] [2, 3])).Perm
      (Timeseries.pairs (Timeseries.mk [1, 1] [3, 2])) ∧
    Timeseries.Sort' (Timeseries.mk [1, 1] [2, 3]) = .ok (Timeseries.mk [1, 1] [2, 3]) ∧
    Timeseries.Sort' (Timeseries.mk [1, 1] [3, 2]) = .ok (Timeseries.mk [1, 1] [3, 2]) ∧
    Timeseries.Equal (Timeseries.mk [1, 1] [2, 3]) (Timeseries.mk [1, 1] [3, 2]) =
      .ok false := by
  exact ⟨rfl, rfl, by decide, rfl, rfl, rfl⟩

/-- Witness for C7 (amended) at t = u = the one-point series (1, 2) and the
point lists [(1, 2), (2, 3)] and [(2, 3), (1, 2)] with distinct x values. -/
theorem C7_witness :
    (Timeseries.mk [1] [2]).Consistent ∧
    ([((1 : ℚ), (2 : ℚ)), (2, 3)] : List (ℚ × ℚ)).Perm [(2, 3), (1, 2)] ∧
    (([((1 : ℚ), (2 : ℚ)), (2, 3)] : List (ℚ × ℚ)).map Prod.fst).Nodup ∧
    (getOk ((ofPairs [((1 : ℚ), (2 : ℚ)), (2, 3)]).Sort')).Equal
      (getOk ((ofPairs [((2 : ℚ), (3 : ℚ)), (1, 2)]).Sort')) = .ok true :=
  ⟨by decide, by decide, by decide,
    (C7_equal_sort (Timeseries.mk [1] [2]) (Timeseries.mk [1] [2])
      [((1 : ℚ), (2 : ℚ)), (2, 3)] [(2, 3), (1, 2)]
      (by decide) (by decide) (by decide) (by decide)).2.2.2.2⟩

/-- C9: every operation preserves the invariant `len(Xs) == len(Ys)`: given
operands satisfying it, every returned series satisfies it; and every
operation invoked on a series with `len(Xs) != len(Ys)` fails loudly with
`LengthMismatch` rather than silently truncating. -/
theorem C9_invariant (t u : Timeseries) (x y x1 x2 : ℚ) (w st en ix : ℕ) :
    (t.Consistent →
      (∀ v, t.Append x y = .ok v → v.Consistent) ∧
      (∀ v, t.After x1 = .ok v → v.Consistent) ∧
      (∀ v, t.Before x1 = .ok v → v.Consistent) ∧
      (∀ v, t.Between x1 x2 = .ok v → v.Consistent) ∧
      (∀ v, t.Difference = .ok v → v.Consistent) ∧
      (∀ v, t.Slice st en = .ok v → v.Consistent) ∧
      (∀ v, t.Sort' = .ok v → v.Consistent) ∧
      (∀ v, t.MovingAverage w = .ok v → v.Consistent)) ∧
    (¬ t.Consistent →
      t.Len = .error .lengthMismatch ∧
      t.First = .error .lengthMismatch ∧
      t.Last = .error .lengthMismatch ∧
      t.At ix = .error .lengthMismatch ∧
      t.Equal u = .error .lengthMismatch ∧
      t.Append x y = .error .lengthMismatch ∧
      t.After x1 = .error .lengthMismatch ∧
      t.Before x1 = .error .lengthMismatch ∧
      t.Between x1 x2 = .error .lengthMismatch ∧
      t.Difference = .error .lengthMismatch ∧
      t.Slice st en = .error .lengthMismatch ∧
      t.Sort' = .error .lengthMismatch ∧
      t.MovingAverage w = .error .lengthMismatch ∧
      t.SimpleLinearRegression = .error .lengthMismatch) := by
  constructor
  · intro hc
    have hc' : t.Xs.length = t.Ys.length := hc
    refine ⟨?_, ?_, ?_, ?_, ?_, ?_, ?_, ?_⟩
    · intro v hv
      unfold Timeseries.Append at hv
      rw [if_neg (by omega)] at hv
      injection hv with h
      subst h
      show (t.Xs ++ [x]).length = (t.Ys ++ [y]).length
      simp [hc']
    · intro v hv
      rw [After_eq t x1 hc] at hv
      injection hv with h
      subst h
      show (t.Xs.drop (t.findPivot x1)).length = (t.Ys.drop (t.findPivot x1)).length
      simp [hc']
    · intro v hv
      rw [Before_eq t x1 hc] at hv
      injection hv with h
      subst h
      show (t.Xs.take (t.findPivot x1)).length = (t.Ys.take (t.findPivot x1)).length
      simp [hc']
    · intro v hv
      rw [Between_eq_composition t x1 x2 hc, After_eq t x1 hc] at hv
      have hv2 : Timeseries.Before
          (Timeseries.mk (t.Xs.drop (t.findPivot x1)) (t.Ys.drop (t.findPivot x1))) x2 =
          .ok v := hv
      rw [Before_eq (Timeseries.mk (t.Xs.drop (t.findPivot x1))
          (t.Ys.drop (t.findPivot x1))) x2 (by
            show (t.Xs.drop (t.findPivot x1)).length = (t.Ys.drop (t.findPivot x1)).length
            simp [hc'])] at hv2
      injection hv2 with h
      subst h
      show (List.take _ (t.Xs.drop (t.findPivot x1))).length =
        (List.take _ (t.Ys.drop (t.findPivot x1))).length
      simp only [List.length_take, List.length_drop, hc']
    · intro v hv
      unfold Timeseries.Difference at hv
      rw [if_neg (by omega)] at hv
      by_cases h2 : t.Xs.length < 2
      · rw [if_pos h2] at hv
        injection hv with h
        subst h
        exact rfl
      · rw [if_neg h2] at hv
        injection hv with h
        subst h
        show (List.map _ _).length = (List.map _ _).length
        simp
    · intro v hv
      unfold Timeseries.Slice at hv
      rw [if_neg (by omega)] at hv
      by_cases hb : st ≤ en ∧ en ≤ t.Xs.length
      · rw [if_pos hb] at hv
        injection hv with h
        subst h
        show ((t.Xs.drop st).take (en - st)).length = ((t.Ys.drop st).take (en - st)).length
        simp only [List.length_take, List.length_drop, hc']
      · rw [if_neg hb] at hv
        exact absurd hv (by simp)
    · intro v hv
      rw [Sort'_eq t hc] at hv
      injection hv with h
      subst h
      show (List.map Prod.fst _).length = (List.map Prod.snd _).length
      simp
    · intro v hv
      unfold Timeseries.MovingAverage at hv
      rw [if_neg (by omega)] at hv
      by_cases hb : w < 1 ∨ t.Xs.length < w
      · rw [if_pos hb] at hv
        injection hv with h
        subst h
        exact rfl
      · rw [if_neg hb] at hv
        injection hv with h
        subst h
        show (List.map _ _).length = (List.map _ _).length
        simp
  · intro hc
    have hc' : t.Xs.length ≠ t.Ys.length := hc
    refine ⟨?_, ?_, ?_, ?_, ?_, ?_, ?_, ?_, ?_, ?_, ?_, ?_, ?_, ?_⟩
    · unfold Timeseries.Len
      rw [if_pos hc']
    · unfold Timeseries.First
      rw [if_pos hc']
    · unfold Timeseries.Last
      rw [if_pos hc']
    · unfold Timeseries.At
      rw [if_pos hc']
    · unfold Timeseries.Equal
      rw [if_pos (Or.inl hc')]
    · unfold Timeseries.Append
      rw [if_pos hc']
    · unfold Timeseries.After
      rw [if_pos hc']
    · unfold Timeseries.Before
      rw [if_pos hc']
    · unfold Timeseries.Between
      rw [if_pos hc']
    · unfold Timeseries.Difference
      rw [if_pos hc']
    · unfold Timeseries.Slice
      rw [if_pos hc']
    · unfold Timeseries.Sort'
      rw [if_pos hc']
    · unfold Timeseries.MovingAverage
      rw [if_pos hc']
    · unfold Timeseries.SimpleLinearRegression
      rw [if_pos hc']

/-- Witness for C9: a consistent series stays consistent under Append, and an
inconsistent series makes Len fail with LengthMismatch. -/
theorem C9_witness :
    (Timeseries.mk [1, 2] [3, 4]).Consistent ∧
    ¬ (Timeseries.mk [1, 2] [3]).Consistent ∧
    (Timeseries.mk [1, 2, 5] [3, 4, 6]).Consistent ∧
    (Timeseries.mk [1, 2] [3]).Len = .error .lengthMismatch :=
  ⟨by decide, by decide,
    ((C9_invariant (Timeseries.mk [1, 2] [3, 4]) (Timeseries.mk [] []) 5 6 0 0 1 0 0 0).1
      (by decide)).1 (Timeseries.mk [1, 2, 5] [3, 4, 6]) rfl,
    ((C9_invariant (Timeseries.mk [1, 2] [3]) (Timeseries.mk [] []) 5 6 0 0 1 0 0 0).2
      (by decide)).1⟩
